import Mathlib

/-!
Shallow embedding of the annotation-processing code of `common-ml`
(`src/dl/annotation_processing.py`, `src/dl/annotate/analyse.py`,
`src/helpers/path_and_files_processing.py`).

Modelling conventions:
* Python strings are `List Char`; file contents are lists of lines, each
  line keeping its trailing newline character (as `readlines`/`readline`
  produce them).
* Python ints are `Int`; Python floats are modelled as exact rationals `ℚ`.
* Python dicts whose keys are inserted in program order are association
  lists (`List (κ × β)`), updated in place and appended on fresh keys.
* Python exceptions are `Except String` (the string names the exception).
* Directory listing (`glob`, `get_files`) is out of scope per the design:
  each operation takes the already-matched list of files as an argument.
-/

namespace CommonML

/-- `String.data`, used to write character-list literals readably. -/
def chars (s : String) : List Char := s.data

/-- Association-list lookup for Python `dict[int, int]` indexing
(`keep[cur_class]`, `self.map_config[class_id]`). Returns `none` where
Python raises `KeyError`. -/
def dictFind (k : Int) : List (Int × Int) → Option Int
  | [] => none
  | p :: rest => if p.1 = k then some p.2 else dictFind k rest

/-! ### `TXTAnnotations.update_classes` (annotation_processing.py lines 112-157) -/

/-- The loop of `update_classes`: iterate `classes_config`, incrementing
`shift` on every entry found in `to_remove`, otherwise emitting
`keep[old_class] = old_class - shift` for entries not already in `keep`. -/
def updateClassesGo (to_remove : List Int) : List Int → List (Int × Int) → Int → List (Int × Int)
  | [], keep, _ => keep
  | old_class :: rest, keep, shift =>
    if old_class ∈ to_remove then
      updateClassesGo to_remove rest keep (shift + 1)
    else if old_class ∈ keep.map Prod.fst then
      updateClassesGo to_remove rest keep shift
    else
      updateClassesGo to_remove rest (keep ++ [(old_class, old_class - shift)]) shift

/-- `TXTAnnotations.update_classes`: raises `ValueError` when
`classes_config` is empty (falsy), otherwise returns the `keep` dict. -/
def update_classes (classes_config : List Int) (to_remove : List Int) :
    Except String (List (Int × Int)) :=
  if classes_config = [] then Except.error ("Classes config was not passed.")
  else Except.ok (updateClassesGo to_remove classes_config [] 0)

/-- Reference recursion equal to `updateClassesGo` on duplicate-free
configs (the duplicate guard `old_class not in keep` never fires): emits
`(c, c - shift)` for survivors, bumping `shift` on removed entries. -/
def emitRemap (to_remove : List Int) : List Int → Int → List (Int × Int)
  | [], _ => []
  | c :: rest, shift =>
    if c ∈ to_remove then emitRemap to_remove rest (shift + 1)
    else (c, c - shift) :: emitRemap to_remove rest shift

/-! ### Geometry codec (`bbox2yolo`, `yolo2bbox`, lines 17-58) -/

/-- `bbox2yolo`: absolute box to normalized centre form; float arithmetic
modelled as exact rational arithmetic. -/
def bbox2yolo (width height xmin ymin xmax ymax : ℚ) : ℚ × ℚ × ℚ × ℚ :=
  let dw := 1 / width
  let dh := 1 / height
  let x := ((xmin + xmax) / 2) * dw
  let y := ((ymin + ymax) / 2) * dh
  let w := (xmax - xmin) * dw
  let h := (ymax - ymin) * dh
  (x, y, w, h)

/-- Python `int(float)`: truncation toward zero, written as the
truncating division of the rational's numerator by its denominator. -/
def pyTrunc (q : ℚ) : Int := q.num.tdiv q.den

/-- `yolo2bbox`: centre form back to corner form via `int(...)`
truncation; note the function takes no image width/height. -/
def yolo2bbox (x y w h : ℚ) : Int × Int × Int × Int :=
  (pyTrunc (x - w / 2), pyTrunc (y - h / 2), pyTrunc (x + w / 2), pyTrunc (y + h / 2))

/-! ### `counter` (analyse.py lines 6-33) -/

/-- A key of the Python dict `cnt` in `counter`: the ids supplied through
`classes` keep their Python type (here `int`), while the ids read from
annotation lines are the raw `str` tokens. `int` and `str` keys never
compare equal. -/
inductive PyKey where
  | int : Int → PyKey
  | str : List Char → PyKey
deriving DecidableEq

/-- Python `<` on `str`: lexicographic on code points. -/
def strLtB : List Char → List Char → Bool
  | [], [] => false
  | [], _ :: _ => true
  | _ :: _, [] => false
  | a :: as, b :: bs =>
    if a.toNat < b.toNat then true
    else if b.toNat < a.toNat then false
    else strLtB as bs

/-- Python `<` on dict keys: defined within one type, raises `TypeError`
between `int` and `str`. -/
def pyLt : PyKey → PyKey → Except String Bool
  | PyKey.int a, PyKey.int b => Except.ok (decide (a < b))
  | PyKey.str a, PyKey.str b => Except.ok (strLtB a b)
  | _, _ => Except.error ("TypeError: not supported between instances of int and str")

/-- Python `<` on the `(key, value)` pairs of `cnt.items()`: tuple
comparison checks key equality first, then compares keys (values are
reached only on equal keys, which cannot happen for dict items). -/
def pyPairLt (p q : PyKey × Int) : Except String Bool :=
  if p.1 = q.1 then Except.ok (decide (p.2 < q.2)) else pyLt p.1 q.1

/-- Insert into an already sorted run, propagating comparison errors:
a model of the comparisons Python `sorted` performs. -/
def insertSorted (p : PyKey × Int) : List (PyKey × Int) → Except String (List (PyKey × Int))
  | [] => Except.ok [p]
  | q :: rest => do
    let lt ← pyPairLt p q
    if lt then
      pure (p :: q :: rest)
    else do
      let r ← insertSorted p rest
      pure (q :: r)

/-- Model of Python `sorted(cnt.items())`: comparison-based sorting that
raises `TypeError` as soon as an `int` key meets a `str` key (as CPython
does whenever both are present). -/
def pySorted : List (PyKey × Int) → Except String (List (PyKey × Int))
  | [] => Except.ok []
  | p :: rest => do
    let r ← pySorted rest
    insertSorted p r

/-- Membership test `clss not in cnt` / `cl in cnt` on the dict. -/
def dictContains (d : List (PyKey × Int)) (k : PyKey) : Bool :=
  d.any fun p => decide (p.1 = k)

/-- `cnt[k] = v`: update in place if the key exists, else append. -/
def dictSet (d : List (PyKey × Int)) (k : PyKey) (v : Int) : List (PyKey × Int) :=
  if dictContains d k then d.map (fun p => if p.1 = k then (p.1, v) else p)
  else d ++ [(k, v)]

/-- `cnt[k] += 1`. -/
def dictIncr (d : List (PyKey × Int)) (k : PyKey) : List (PyKey × Int) :=
  d.map fun p => if p.1 = k then (p.1, p.2 + 1) else p

/-- `txt.readline().split(' ', 1)[0]`: the prefix of the line before the
first space (the whole line, trailing newline included, when it has no
space). -/
def counterLineToken (line : List Char) : List Char :=
  line.takeWhile fun c => decide (c ≠ ' ')

/-- The `while clss := ...` loop: successive leading tokens of the file's
lines, stopping at the first falsy (empty) token; at end of file
`readline` returns the empty string, whose token is empty. -/
def fileClassTokens : List (List Char) → List (List Char)
  | [] => []
  | line :: rest =>
    let clss := counterLineToken line
    if clss = [] then [] else clss :: fileClassTokens rest

/-- Loop body of `counter`: `if clss not in cnt: cnt[clss] = -1` then
`cnt[clss] += 1`. The token is a `str` key. -/
def counterTally (cnt : List (PyKey × Int)) (clss : List Char) : List (PyKey × Int) :=
  let cnt1 := if dictContains cnt (PyKey.str clss) then cnt else cnt ++ [(PyKey.str clss, -1)]
  dictIncr cnt1 (PyKey.str clss)

/-- `counter`: zero tally for every id in `classes`, then tally the
leading token of every line of every matched file, then sort the items.
`files` is the list of matched `.txt` files, each a list of lines. -/
def counter (files : List (List (List Char))) (classes : List PyKey) :
    Except String (List (PyKey × Int)) :=
  let cnt := classes.foldl (fun d cl => dictSet d cl 0) []
  let cnt := files.foldl (fun d lines => (fileClassTokens lines).foldl counterTally d) cnt
  pySorted cnt

/-! ### `TXTAnnotations.remove_class` (lines 159-181) -/

/-- Digit character value. -/
def digitVal (c : Char) : Option Nat :=
  if decide ('0' ≤ c) && decide (c ≤ '9') then some (c.toNat - '0'.toNat) else none

/-- Accumulate a decimal numeral. -/
def parseDigitsAux : List Char → Nat → Option Nat
  | [], acc => some acc
  | c :: rest, acc =>
    match digitVal c with
    | some d => parseDigitsAux rest (acc * 10 + d)
    | none => none

/-- Characters Python `int(str)` strips around a numeral. -/
def isPySpace (c : Char) : Bool :=
  decide (c = ' ') || decide (c = '\n') || decide (c = '\t') || decide (c = '\r')

/-- Python `int(str)`: strip surrounding whitespace, optional sign,
decimal digits; `none` where Python raises `ValueError`. -/
def pyInt (cs : List Char) : Option Int :=
  let cs := ((cs.dropWhile isPySpace).reverse.dropWhile isPySpace).reverse
  match cs with
  | [] => none
  | '-' :: rest =>
    if rest = [] then none else (parseDigitsAux rest 0).map fun n => -(n : Int)
  | '+' :: rest =>
    if rest = [] then none else (parseDigitsAux rest 0).map fun n => (n : Int)
  | _ => (parseDigitsAux cs 0).map fun n => (n : Int)

/-- `line.split(' ', 1)` destructured into exactly two parts: the text
before the first space and the text after it. `none` models the
`ValueError` raised by the unpacking when the line has no space. -/
def splitOnce (line : List Char) : Option (List Char × List Char) :=
  if line.contains ' ' then
    some (line.takeWhile (fun c => decide (c ≠ ' ')),
      (line.dropWhile fun c => decide (c ≠ ' ')).tail)
  else none

/-- Decimal rendering of a Python int (`f-string` interpolation). -/
def intStr (n : Int) : List Char :=
  if n < 0 then '-' :: Nat.toDigits 10 (-n).toNat else Nat.toDigits 10 n.toNat

/-- Per-line body of the `remove_class` rewrite loop: split off the class
id, parse it, drop the record when the id is in `to_remove`, otherwise
write `f-string of keep[cur_class]` followed by the rest of the line
(`keep[cur_class]` raises `KeyError` when absent). -/
def removeClassLine (keep : List (Int × Int)) (to_remove : List Int) (line : List Char) :
    Except String (Option (List Char)) :=
  match splitOnce line with
  | none => Except.error ("ValueError: not enough values to unpack")
  | some (curStr, line_wo_class) =>
    match pyInt curStr with
    | none => Except.error ("ValueError: invalid literal for int")
    | some cur_class =>
      if cur_class ∈ to_remove then Except.ok none
      else
        match dictFind cur_class keep with
        | some new_class => Except.ok (some (intStr new_class ++ ' ' :: line_wo_class))
        | none => Except.error ("KeyError")

/-- Rewrite of one annotation file by `remove_class`: kept lines in
order; an exception aborts the rewrite. -/
def removeClassFile (keep : List (Int × Int)) (to_remove : List Int) :
    List (List Char) → Except String (List (List Char))
  | [] => Except.ok []
  | line :: rest => do
    let out ← removeClassLine keep to_remove line
    let others ← removeClassFile keep to_remove rest
    match out with
    | some s => pure (s :: others)
    | none => pure others

/-- `TXTAnnotations.remove_class`: compute the remap via
`update_classes`, then rewrite every matched file. `files` is the list
of matched files, each a list of lines. -/
def remove_class (classes_config to_remove : List Int) (files : List (List (List Char))) :
    Except String (List (List (List Char))) := do
  let keep ← update_classes classes_config to_remove
  files.mapM (removeClassFile keep to_remove)

/-! ### Path helpers and `TXTAnnotations.add_txt` (lines 97-110) -/

/-- `get_filename`: part of the path after the last slash and before the
first dot of that basename. -/
def get_filename (path : List Char) : List Char :=
  ((path.reverse.takeWhile fun c => decide (c ≠ '/')).reverse).takeWhile
    fun c => decide (c ≠ '.')

/-- `combine_path`: `folder/filename` or `folder/filename.extension`. -/
def combine_path (folder filename : List Char) (extension : Option (List Char)) : List Char :=
  match extension with
  | none => folder ++ '/' :: filename
  | some ext => folder ++ '/' :: (filename ++ '.' :: ext)

/-- Loop body of `add_txt` on the annotation store (an association list
from file path to file content): `txt_file = combine_path(txt_path,
get_filename(img))`; if it does not exist (`os.path.exists`), create it
empty (`open(txt_file, 'w+')`). -/
def addTxtStep (txt_path : List Char) (st : List (List Char × List Char))
    (img : List Char) : List (List Char × List Char) :=
  let txt_file := combine_path txt_path (get_filename img) (some (chars ("txt")))
  if st.any (fun p => decide (p.1 = txt_file)) then st else st ++ [(txt_file, [])]

/-- `TXTAnnotations.add_txt`: for each matched image, if the
corresponding txt file does not exist, create it empty; never touch an
existing file. -/
def add_txt (images : List (List Char)) (txt_path : List Char)
    (fs : List (List Char × List Char)) : List (List Char × List Char) :=
  images.foldl (addTxtStep txt_path) fs

/-! ### `JSON2TXT.json2txt` (lines 242-267) -/

/-- One entry of `data['objects']`. -/
structure JsonObject where
  classId : Int
  exterior : List (Int × Int)

/-- A parsed JSON annotation file: `data['size']` and `data['objects']`.
`json.load` itself is Python library code; an input file is given
together with its parse outcome (`none` = malformed JSON). -/
structure JsonData where
  width : Int
  height : Int
  objects : List JsonObject

/-- One line of YOLO output: class id and the four normalized floats
(the formatted text is determined by these values). -/
def YoloLine := Int × ℚ × ℚ × ℚ × ℚ

/-- Association-list lookup keyed by file path. -/
def fsGet (k : List Char) : List (List Char × List YoloLine) → Option (List YoloLine)
  | [] => none
  | p :: rest => if p.1 = k then some p.2 else fsGet k rest

/-- Write a file: replace the content if the path exists, else create. -/
def fsSet (fs : List (List Char × List YoloLine)) (k : List Char) (v : List YoloLine) :
    List (List Char × List YoloLine) :=
  if fs.any (fun p => decide (p.1 = k)) then
    fs.map fun p => if p.1 = k then (p.1, v) else p
  else fs ++ [(k, v)]

/-- Per-object body of the `json2txt` loop: first and last exterior
points as the two corners, `bbox2yolo`, class mapped through
`map_config` (a missing key raises `KeyError`, an empty `exterior`
raises `IndexError`). -/
def json2txtObject (map_config : List (Int × Int)) (width height : Int)
    (obj : JsonObject) : Except String YoloLine :=
  match obj.exterior, obj.exterior.getLast? with
  | p0 :: _, some pl =>
    let (x, y, w, h) := bbox2yolo width height p0.1 p0.2 pl.1 pl.2
    match dictFind obj.classId map_config with
    | some class_id => Except.ok (class_id, x, y, w, h)
    | none => Except.error ("KeyError")
  | _, _ => Except.error ("IndexError")

/-- The object loop of `json2txt` for one JSON file: lines are written
one by one, so an exception mid-file leaves the lines already written. -/
def json2txtLines (map_config : List (Int × Int)) (width height : Int) :
    List JsonObject → List YoloLine × Option String
  | [] => ([], none)
  | obj :: rest =>
    match json2txtObject map_config width height obj with
    | Except.ok line =>
      let (ls, e) := json2txtLines map_config width height rest
      (line :: ls, e)
    | Except.error e => ([], some e)

/-- `JSON2TXT.json2txt`: for each matched JSON file, open the output txt
file in `w+` mode — which truncates it at once — then `json.load` the
input and write one line per object. A failure aborts the batch, leaving
the already-performed writes (including the truncation) in place. Each
input is paired with its parse outcome. -/
def json2txt (txt_path : List Char) (map_config : List (Int × Int)) :
    List (List Char × Option JsonData) → List (List Char × List YoloLine) →
    List (List Char × List YoloLine) × Option String
  | [], fs => (fs, none)
  | (json_file, parsed) :: rest, fs =>
    let txt_file := combine_path txt_path (get_filename json_file) (some (chars ("txt")))
    let fs1 := fsSet fs txt_file []
    match parsed with
    | none => (fs1, some ("JSONDecodeError"))
    | some data =>
      match json2txtLines map_config data.width data.height data.objects with
      | (lines, some e) => (fsSet fs1 txt_file lines, some e)
      | (lines, none) => json2txt txt_path map_config rest (fsSet fs1 txt_file lines)

/-! ## Proofs -/

theorem updateClassesGo_eq_emit (to_remove : List Int) (config : List Int) :
    ∀ (acc : List (Int × Int)) (shift : Int), config.Nodup →
    (∀ c ∈ config, c ∉ acc.map Prod.fst) →
    updateClassesGo to_remove config acc shift = acc ++ emitRemap to_remove config shift := by
  induction config with
  | nil => intro acc shift _ _; simp [updateClassesGo, emitRemap]
  | cons c rest ih =>
    intro acc shift hnd hacc
    rw [List.nodup_cons] at hnd
    by_cases hc : c ∈ to_remove
    · rw [updateClassesGo, if_pos hc, emitRemap, if_pos hc]
      exact ih acc (shift + 1) hnd.2 fun d hd => hacc d (List.mem_cons_of_mem c hd)
    · have hcacc : c ∉ acc.map Prod.fst := hacc c (List.mem_cons_self c rest)
      rw [updateClassesGo, if_neg hc, if_neg hcacc, emitRemap, if_neg hc]
      rw [ih (acc ++ [(c, c - shift)]) shift hnd.2 ?_]
      · simp
      · intro d hd
        simp only [List.map_append, List.mem_append, List.map_cons, List.map_nil,
          List.mem_singleton, not_or]
        refine ⟨hacc d (List.mem_cons_of_mem c hd), ?_⟩
        intro hdc
        exact hnd.1 (hdc ▸ hd)

theorem emitRemap_lb (to_remove : List Int) (config : List Int) :
    ∀ (shift lo : Int), config.Pairwise (· < ·) → (∀ e ∈ config, lo < e) →
    ∀ p ∈ emitRemap to_remove config shift, lo < p.1 ∧ lo - shift < p.2 := by
  induction config with
  | nil => intro shift lo _ _ p hp; simp [emitRemap] at hp
  | cons c rest ih =>
    intro shift lo hpair hlo p hp
    rw [List.pairwise_cons] at hpair
    have hlc : lo < c := hlo c (List.mem_cons_self c rest)
    by_cases hc : c ∈ to_remove
    · rw [emitRemap, if_pos hc] at hp
      have h := ih (shift + 1) c hpair.2 hpair.1 p hp
      exact ⟨by omega, by omega⟩
    · rw [emitRemap, if_neg hc] at hp
      rcases List.mem_cons.mp hp with h | h
      · subst h; exact ⟨hlc, by omega⟩
      · have h := ih shift c hpair.2 hpair.1 p h
        exact ⟨by omega, by omega⟩

theorem emitRemap_pairwise (to_remove : List Int) (config : List Int) :
    ∀ (shift : Int), config.Pairwise (· < ·) →
    (emitRemap to_remove config shift).Pairwise fun p q => p.1 < q.1 ∧ p.2 < q.2 := by
  induction config with
  | nil => intro shift _; simp [emitRemap]
  | cons c rest ih =>
    intro shift hpair
    rw [List.pairwise_cons] at hpair
    by_cases hc : c ∈ to_remove
    · rw [emitRemap, if_pos hc]
      exact ih (shift + 1) hpair.2
    · rw [emitRemap, if_neg hc, List.pairwise_cons]
      refine ⟨fun q hq => ?_, ih shift hpair.2⟩
      have h := emitRemap_lb to_remove rest shift c hpair.2 hpair.1 q hq
      exact ⟨h.1, by omega⟩

theorem dictFind_mem {k v : Int} : ∀ {l : List (Int × Int)}, dictFind k l = some v → (k, v) ∈ l := by
  intro l
  induction l with
  | nil => intro h; simp [dictFind] at h
  | cons p rest ih =>
    intro h
    rw [dictFind] at h
    by_cases hp : p.1 = k
    · rw [if_pos hp] at h
      have : p = (k, v) := by
        cases p; cases h; cases hp; rfl
      exact this ▸ List.mem_cons_self p rest
    · rw [if_neg hp] at h
      exact List.mem_cons_of_mem p (ih h)

theorem dictFind_pairwise_lt {a b va vb : Int} :
    ∀ {l : List (Int × Int)},
    (l.Pairwise fun p q => p.1 < q.1 ∧ p.2 < q.2) →
    dictFind a l = some va → dictFind b l = some vb → a < b → va < vb := by
  intro l
  induction l with
  | nil => intro _ ha _ _; simp [dictFind] at ha
  | cons p rest ih =>
    intro hpair ha hb hab
    rw [List.pairwise_cons] at hpair
    rw [dictFind] at ha hb
    by_cases hpa : p.1 = a <;> by_cases hpb : p.1 = b
    · omega
    · rw [if_pos hpa] at ha
      rw [if_neg hpb] at hb
      have hm := hpair.1 (b, vb) (dictFind_mem hb)
      cases ha
      exact hm.2
    · rw [if_neg hpa] at ha
      rw [if_pos hpb] at hb
      have hm := hpair.1 (a, va) (dictFind_mem ha)
      omega
    · rw [if_neg hpa] at ha
      rw [if_neg hpb] at hb
      exact ih hpair.2 ha hb hab

theorem emitRemap_keys (to_remove : List Int) (config : List Int) :
    ∀ (shift : Int), (emitRemap to_remove config shift).map Prod.fst
      = config.filter fun c => decide (c ∉ to_remove) := by
  induction config with
  | nil => intro shift; simp [emitRemap]
  | cons c rest ih =>
    intro shift
    by_cases hc : c ∈ to_remove
    · rw [emitRemap, if_pos hc]
      simp [List.filter_cons, hc, ih]
    · rw [emitRemap, if_neg hc]
      simp [List.filter_cons, hc, ih]

theorem emitRemap_range'_snd (to_remove : List Int) :
    ∀ (m s : Nat) (shift : Int),
    (emitRemap to_remove ((List.range' s m).map Int.ofNat) shift).map Prod.snd
      = (List.range (emitRemap to_remove ((List.range' s m).map Int.ofNat) shift).length).map
          fun i : Nat => ((s : Int) - shift) + (i : Int) := by
  intro m
  induction m with
  | zero => intro s shift; simp [emitRemap]
  | succ m ih =>
    intro s shift
    rw [List.range'_succ, List.map_cons]
    by_cases hs : (Int.ofNat s) ∈ to_remove
    · rw [emitRemap, if_pos hs]
      have h := ih (s + 1) (shift + 1)
      have hfun : (fun i : Nat => (((s + 1 : Nat) : Int) - (shift + 1)) + (i : Int))
          = fun i : Nat => ((s : Int) - shift) + (i : Int) := by
        funext i; push_cast; ring
      rw [hfun] at h
      exact h
    · rw [emitRemap, if_neg hs]
      rw [List.map_cons, List.length_cons, List.range_succ_eq_map, List.map_cons, List.map_map]
      have h := ih (s + 1) shift
      have hfun : ((fun i : Nat => ((s : Int) - shift) + (i : Int)) ∘ Nat.succ)
          = fun i : Nat => (((s + 1 : Nat) : Int) - shift) + (i : Int) := by
        funext i
        simp only [Function.comp, Nat.succ_eq_add_one]
        push_cast
        ring
      rw [hfun, ← h]
      congr 1
      simp [Int.ofNat_eq_coe]

theorem update_classes_ok_eq_emit (classes_config to_remove : List Int)
    (keep : List (Int × Int)) (hnd : classes_config.Nodup)
    (hk : update_classes classes_config to_remove = Except.ok keep) :
    keep = emitRemap to_remove classes_config 0 := by
  by_cases hne : classes_config = []
  · rw [hne, update_classes] at hk
    simp at hk
  · rw [update_classes, if_neg hne] at hk
    cases hk
    rw [updateClassesGo_eq_emit to_remove classes_config [] 0 hnd (by simp)]
    simp

/-- C1 (amended): over the Class Config `0, 1, ..., n-1` (consecutive ids
starting at 0, as produced for a YOLO dataset), `update_classes` is
gap-free: with `N` surviving classes the values of the returned remap are
exactly `0, ..., N-1` in order, and `N` is the number of config entries
not in `to_remove`. -/
theorem update_classes_range_gapfree (n : Nat) (hn : 0 < n) (to_remove : List Int) :
    ∃ keep, update_classes ((List.range n).map Int.ofNat) to_remove = Except.ok keep ∧
      keep.map Prod.snd = (List.range keep.length).map Int.ofNat ∧
      keep.length = (((List.range n).map Int.ofNat).filter fun c => decide (c ∉ to_remove)).length := by
  have hnd : ((List.range n).map Int.ofNat).Nodup :=
    (List.nodup_range n).map fun a b h => Int.ofNat.inj h
  have hne : (List.range n).map Int.ofNat ≠ [] := by
    simp [List.range_eq_nil]
    omega
  refine ⟨updateClassesGo to_remove ((List.range n).map Int.ofNat) [] 0, ?_, ?_, ?_⟩
  · rw [update_classes, if_neg hne]
  · rw [updateClassesGo_eq_emit to_remove _ [] 0 hnd (by simp), List.nil_append]
    have h := emitRemap_range'_snd to_remove n 0 0
    rw [← List.range_eq_range'] at h
    have hfun : (fun i : Nat => (((0 : Nat) : Int) - 0) + (i : Int)) = fun i : Nat => Int.ofNat i := by
      funext i; simp [Int.ofNat_eq_coe]
    rw [hfun] at h
    exact h
  · rw [updateClassesGo_eq_emit to_remove _ [] 0 hnd (by simp), List.nil_append]
    have h := emitRemap_keys to_remove ((List.range n).map Int.ofNat) 0
    calc (emitRemap to_remove ((List.range n).map Int.ofNat) 0).length
        = ((emitRemap to_remove ((List.range n).map Int.ofNat) 0).map Prod.fst).length := by
          rw [List.length_map]
      _ = _ := by rw [h]

/-- C1 witness: `n = 3`, `to_remove = [1]`. -/
theorem update_classes_range_gapfree_witness :
    0 < 3 ∧
    ∃ keep, update_classes ((List.range 3).map Int.ofNat) [1] = Except.ok keep ∧
      keep.map Prod.snd = (List.range keep.length).map Int.ofNat ∧
      keep.length = (((List.range 3).map Int.ofNat).filter fun c => decide (c ∉ ([1] : List Int))).length :=
  ⟨by decide, update_classes_range_gapfree 3 (by decide) [1]⟩

/-- C1 counterexample: the Class Config `[0, 2]` is non-empty and
`to_remove = []` is a subset of its entries; both classes survive
(`N = 2`), yet the image of the returned remap is `{0, 2}`, not
`{0, 1}` — the claim fails for a Class Config with a gap. -/
theorem update_classes_sparse_config_not_gapfree :
    update_classes [(0 : Int), 2] [] = Except.ok [(0, 0), (2, 2)] ∧
    [((0 : Int), (0 : Int)), ((2 : Int), (2 : Int))].map Prod.snd = [0, 2] ∧
    [(0 : Int), 2] ≠ (List.range 2).map Int.ofNat := by
  refine ⟨rfl, rfl, by decide⟩

/-- C2 (amended): when the Class Config is strictly increasing (the
`sorted list of classes` the code documents), `update_classes` is
order-preserving: if `a` and `b` both survive and `a` appears before `b`
in the config (equivalently `a < b`), then `remap[a] < remap[b]`. -/
theorem update_classes_sorted_order_preserving (classes_config to_remove : List Int)
    (keep : List (Int × Int)) (a b va vb : Int)
    (hs : classes_config.Pairwise (· < ·))
    (hk : update_classes classes_config to_remove = Except.ok keep)
    (ha : dictFind a keep = some va) (hb : dictFind b keep = some vb)
    (hab : a < b) : va < vb := by
  have hnd : classes_config.Nodup := hs.imp fun h => ne_of_lt h
  have hkeep := update_classes_ok_eq_emit classes_config to_remove keep hnd hk
  subst hkeep
  exact dictFind_pairwise_lt (emitRemap_pairwise to_remove classes_config 0 hs) ha hb hab

/-- C2 witness: config `[0, 1, 2]`, `to_remove = [1]`, survivors `0 < 2`
with `remap[0] = 0 < 1 = remap[2]`. -/
theorem update_classes_sorted_order_preserving_witness :
    ([(0 : Int), 1, 2].Pairwise (· < ·)) ∧
    update_classes [0, 1, 2] [1] = Except.ok [(0, 0), (2, 1)] ∧
    dictFind 0 [(0, 0), (2, 1)] = some 0 ∧
    dictFind 2 [(0, 0), (2, 1)] = some 1 ∧
    (0 : Int) < 2 ∧ (0 : Int) < 1 :=
  ⟨by decide, rfl, rfl, rfl, by decide,
    update_classes_sorted_order_preserving [0, 1, 2] [1] [(0, 0), (2, 1)] 0 2 0 1
      (by decide) rfl rfl rfl (by decide)⟩

/-- C2 counterexample: in the Class Config `[2, 1]` with `to_remove = []`,
`a = 2` appears before `b = 1` and both survive, but
`remap[2] = 2 ≥ 1 = remap[1]`: the mapping follows the numeric ids, not
the config order, so the claim fails for an unsorted config. -/
theorem update_classes_unordered_config_not_order_preserving :
    update_classes [(2 : Int), 1] [] = Except.ok [(2, 2), (1, 1)] ∧
    dictFind 2 [((2 : Int), (2 : Int)), (1, 1)] = some 2 ∧
    dictFind 1 [((2 : Int), (2 : Int)), (1, 1)] = some 1 ∧
    ¬ ((2 : Int) < 1) :=
  ⟨rfl, rfl, rfl, by decide⟩

/-- C3 counterexample: on the claimed scenario — files `a.txt` with lines
`"0 .. \n"`, `"1 ..\n"` and `b.txt` with line `"0 ..\n"`, and
`classes = (0, 1, 2)` as integers — `counter` does not return
`[(0, 2), (1, 1), (2, 0)]`: the tokens read from the files are strings,
so all counts land under fresh `str` keys, and sorting the mixed
`int`/`str` keys raises `TypeError`. -/
theorem counter_int_classes_type_error :
    counter [[chars ("0 .. \n"), chars ("1 ..\n")], [chars ("0 ..\n")]]
        [PyKey.int 0, PyKey.int 1, PyKey.int 2]
      = Except.error ("TypeError: not supported between instances of int and str") ∧
    counter [[chars ("0 .. \n"), chars ("1 ..\n")], [chars ("0 ..\n")]]
        [PyKey.int 0, PyKey.int 1, PyKey.int 2]
      ≠ Except.ok [(PyKey.int 0, 2), (PyKey.int 1, 1), (PyKey.int 2, 0)] := by
  constructor
  · rfl
  · intro hcontra
    rw [show counter [[chars ("0 .. \n"), chars ("1 ..\n")], [chars ("0 ..\n")]]
          [PyKey.int 0, PyKey.int 1, PyKey.int 2]
        = Except.error ("TypeError: not supported between instances of int and str") from rfl]
      at hcontra
    exact Except.noConfusion hcontra

/-- C3 (amended): the same scenario with the class ids supplied as the
strings `"0", "1", "2"` (matching the raw tokens the file lines yield)
returns the sorted pairs `[("0", 2), ("1", 1), ("2", 0)]`. -/
theorem counter_str_classes_example :
    counter [[chars ("0 .. \n"), chars ("1 ..\n")], [chars ("0 ..\n")]]
        [PyKey.str (chars ("0")), PyKey.str (chars ("1")), PyKey.str (chars ("2"))]
      = Except.ok [(PyKey.str (chars ("0")), 2), (PyKey.str (chars ("1")), 1),
          (PyKey.str (chars ("2")), 0)] := rfl

/-- C4: an id that is not listed in `classes` is initialized to `-1` and
then incremented, so after its first occurrence its tally is `0`, not `1`
as the claim (and the function's own purpose, counting `each class
amount`) requires: a directory with one file containing the single line
`"5 x\n"` and `classes = ()` yields tally `0` for token `"5"`. -/
theorem counter_first_occurrence_tally_zero :
    counter [[chars ("5 x\n")]] [] = Except.ok [(PyKey.str (chars ("5")), 0)] ∧
    (0 : Int) ≠ 1 := ⟨rfl, by decide⟩

theorem takeWhile_append_stop (p : Char → Bool) (cs rest : List Char) (x : Char)
    (hall : ∀ c ∈ cs, p c = true) (hx : p x = false) :
    (cs ++ x :: rest).takeWhile p = cs := by
  induction cs with
  | nil => simp [List.takeWhile, hx]
  | cons c cs ih =>
    rw [List.cons_append, List.takeWhile]
    rw [hall c (List.mem_cons_self c cs)]
    rw [ih fun d hd => hall d (List.mem_cons_of_mem c hd)]

theorem dropWhile_append_stop (p : Char → Bool) (cs rest : List Char) (x : Char)
    (hall : ∀ c ∈ cs, p c = true) (hx : p x = false) :
    (cs ++ x :: rest).dropWhile p = x :: rest := by
  induction cs with
  | nil => simp [List.dropWhile, hx]
  | cons c cs ih =>
    rw [List.cons_append, List.dropWhile]
    rw [hall c (List.mem_cons_self c cs)]
    exact ih fun d hd => hall d (List.mem_cons_of_mem c hd)

theorem splitOnce_append (cs rest : List Char) (hsp : ' ' ∉ cs) :
    splitOnce (cs ++ ' ' :: rest) = some (cs, rest) := by
  have hall : ∀ c ∈ cs, (fun c => decide (c ≠ ' ')) c = true := by
    intro c hc
    simp only [decide_eq_true_eq]
    intro heq
    exact hsp (heq ▸ hc)
  have hcont : (cs ++ ' ' :: rest).contains ' ' = true := by
    simp [List.contains]
  rw [splitOnce, if_pos hcont]
  rw [takeWhile_append_stop _ cs rest ' ' hall (by simp)]
  rw [dropWhile_append_stop _ cs rest ' ' hall (by simp)]
  rfl

/-- C5 (amended): the rewrite loop of `remove_class` drops a record whose
class id is in `to_remove`; rewrites a record whose id has an entry in
the remap with the remapped id, the rest of the line unchanged; and for a
record whose id is in neither it FAILS with a lookup error (`KeyError`)
rather than silently dropping the record. -/
theorem remove_class_line_cases (keep : List (Int × Int)) (to_remove : List Int)
    (curStr rest : List Char) (cur : Int)
    (hsp : ' ' ∉ curStr) (hparse : pyInt curStr = some cur) :
    (cur ∈ to_remove →
      removeClassLine keep to_remove (curStr ++ ' ' :: rest) = Except.ok none) ∧
    (∀ v, cur ∉ to_remove → dictFind cur keep = some v →
      removeClassLine keep to_remove (curStr ++ ' ' :: rest)
        = Except.ok (some (intStr v ++ ' ' :: rest))) ∧
    (cur ∉ to_remove → dictFind cur keep = none →
      removeClassLine keep to_remove (curStr ++ ' ' :: rest) = Except.error ("KeyError")) := by
  have hs := splitOnce_append curStr rest hsp
  refine ⟨?_, ?_, ?_⟩
  · intro hmem
    simp [removeClassLine, hs, hparse, hmem]
  · intro v hmem hv
    simp [removeClassLine, hs, hparse, hmem, hv]
  · intro hmem hv
    simp [removeClassLine, hs, hparse, hmem, hv]

/-- C5 witness: class `1` with `to_remove = [1]` is dropped. -/
theorem remove_class_line_cases_witness :
    (' ' ∉ chars ("1")) ∧ pyInt (chars ("1")) = some 1 ∧
    ((1 : Int) ∈ ([1] : List Int) →
      removeClassLine [(0, 0)] [1] (chars ("1") ++ ' ' :: chars ("x\n")) = Except.ok none) :=
  ⟨by decide, rfl,
    (remove_class_line_cases [(0, 0)] [1] (chars ("1")) (chars ("x\n")) 1 (by decide) rfl).1⟩

/-- C5 counterexample: with Class Config `(0, 1)` and `to_remove = (1)`,
a file containing the record `"2 0.5 0.5 0.1 0.1\n"` (class `2`, not in
`to_remove` and with no entry in the remap) makes `remove_class` fail
with a lookup error instead of silently dropping the record. -/
theorem remove_class_raises_keyerror :
    remove_class [0, 1] [1] [[chars ("2 0.5 0.5 0.1 0.1\n")]] = Except.error ("KeyError") ∧
    ¬ ∃ out, remove_class [0, 1] [1] [[chars ("2 0.5 0.5 0.1 0.1\n")]] = Except.ok out := by
  constructor
  · rfl
  · rintro ⟨out, hout⟩
    rw [show remove_class [0, 1] [1] [[chars ("2 0.5 0.5 0.1 0.1\n")]]
        = Except.error ("KeyError") from rfl] at hout
    exact Except.noConfusion hout

/-- C8: `update_classes` fails with the configuration error exactly when
the Class Config is empty: on the empty config it raises `ValueError`
(`"Classes config was not passed."`), on any non-empty config it returns
a remap; `remove_class` computes the remap first, so on an empty config
it fails the same way whatever the files are, before producing any
output. -/
theorem update_classes_config_errors (classes_config to_remove : List Int)
    (files : List (List (List Char))) (hne : classes_config ≠ []) :
    update_classes [] to_remove = Except.error ("Classes config was not passed.") ∧
    (∃ keep, update_classes classes_config to_remove = Except.ok keep) ∧
    remove_class [] to_remove files = Except.error ("Classes config was not passed.") := by
  refine ⟨rfl, ⟨updateClassesGo to_remove classes_config [] 0, ?_⟩, rfl⟩
  rw [update_classes, if_neg hne]

/-- C8 witness: config `[0]`, empty `to_remove`, no files. -/
theorem update_classes_config_errors_witness :
    ([(0 : Int)] ≠ ([] : List Int)) ∧
    (update_classes [] [] = Except.error ("Classes config was not passed.") ∧
      (∃ keep, update_classes [(0 : Int)] [] = Except.ok keep) ∧
      remove_class [] [] [] = Except.error ("Classes config was not passed.")) :=
  ⟨by decide, update_classes_config_errors [0] [] [] (by decide)⟩

/-- C6: for integer inputs with `0 < width`, `0 < height`,
`0 ≤ xmin ≤ xmax ≤ width` and `0 ≤ ymin ≤ ymax ≤ height`, `bbox2yolo`
returns exactly `(((xmin+xmax)/2)/width, ((ymin+ymax)/2)/height,
(xmax-xmin)/width, (ymax-ymin)/height)`, each component lies in `[0, 1]`,
and `bbox2yolo 100 100 10 10 50 50 = (0.3, 0.3, 0.4, 0.4)`. -/
theorem bbox2yolo_formula_bounds (width height xmin ymin xmax ymax : Int)
    (hw : 0 < width) (hh : 0 < height)
    (hx0 : 0 ≤ xmin) (hx1 : xmin ≤ xmax) (hx2 : xmax ≤ width)
    (hy0 : 0 ≤ ymin) (hy1 : ymin ≤ ymax) (hy2 : ymax ≤ height) :
    bbox2yolo width height xmin ymin xmax ymax
      = ((((xmin : ℚ) + xmax) / 2) / width, (((ymin : ℚ) + ymax) / 2) / height,
         ((xmax : ℚ) - xmin) / width, ((ymax : ℚ) - ymin) / height) ∧
    (0 ≤ (((xmin : ℚ) + xmax) / 2) / width ∧ (((xmin : ℚ) + xmax) / 2) / width ≤ 1) ∧
    (0 ≤ (((ymin : ℚ) + ymax) / 2) / height ∧ (((ymin : ℚ) + ymax) / 2) / height ≤ 1) ∧
    (0 ≤ ((xmax : ℚ) - xmin) / width ∧ ((xmax : ℚ) - xmin) / width ≤ 1) ∧
    (0 ≤ ((ymax : ℚ) - ymin) / height ∧ ((ymax : ℚ) - ymin) / height ≤ 1) ∧
    bbox2yolo 100 100 10 10 50 50 = (3 / 10, 3 / 10, 2 / 5, 2 / 5) := by
  have hwq : (0 : ℚ) < (width : ℚ) := by exact_mod_cast hw
  have hhq : (0 : ℚ) < (height : ℚ) := by exact_mod_cast hh
  have h2w : (0 : ℚ) < 2 * (width : ℚ) := by linarith
  have h2h : (0 : ℚ) < 2 * (height : ℚ) := by linarith
  refine ⟨by simp [bbox2yolo, div_eq_mul_inv], ⟨?_, ?_⟩, ⟨?_, ?_⟩, ⟨?_, ?_⟩, ⟨?_, ?_⟩,
    by norm_num [bbox2yolo]⟩
  · refine div_nonneg (div_nonneg ?_ (by norm_num)) hwq.le
    exact_mod_cast show (0 : Int) ≤ xmin + xmax by omega
  · rw [div_div, div_le_one h2w]
    exact_mod_cast show (xmin + xmax : Int) ≤ 2 * width by omega
  · refine div_nonneg (div_nonneg ?_ (by norm_num)) hhq.le
    exact_mod_cast show (0 : Int) ≤ ymin + ymax by omega
  · rw [div_div, div_le_one h2h]
    exact_mod_cast show (ymin + ymax : Int) ≤ 2 * height by omega
  · refine div_nonneg ?_ hwq.le
    exact_mod_cast show (0 : Int) ≤ xmax - xmin by omega
  · rw [div_le_one hwq]
    exact_mod_cast show (xmax - xmin : Int) ≤ width by omega
  · refine div_nonneg ?_ hhq.le
    exact_mod_cast show (0 : Int) ≤ ymax - ymin by omega
  · rw [div_le_one hhq]
    exact_mod_cast show (ymax - ymin : Int) ≤ height by omega

/-- C6 witness: `bbox2yolo 100 100 10 10 50 50`. -/
theorem bbox2yolo_formula_bounds_witness :
    ((0 : Int) < 100 ∧ (0 : Int) ≤ 10 ∧ (10 : Int) ≤ 50 ∧ (50 : Int) ≤ 100) ∧
    bbox2yolo 100 100 10 10 50 50
      = ((((10 : Int) : ℚ) + ((50 : Int) : ℚ)) / 2 / ((100 : Int) : ℚ),
         (((10 : Int) : ℚ) + ((50 : Int) : ℚ)) / 2 / ((100 : Int) : ℚ),
         (((50 : Int) : ℚ) - ((10 : Int) : ℚ)) / ((100 : Int) : ℚ),
         (((50 : Int) : ℚ) - ((10 : Int) : ℚ)) / ((100 : Int) : ℚ)) :=
  ⟨⟨by decide, by decide, by decide, by decide⟩,
    (bbox2yolo_formula_bounds 100 100 10 10 50 50 (by decide) (by decide) (by decide)
      (by decide) (by decide) (by decide) (by decide) (by decide)).1⟩

theorem pyTrunc_eq_floor_or_ceil (q : ℚ) :
    pyTrunc q = if 0 ≤ q then ⌊q⌋ else ⌈q⌉ := by
  by_cases h : 0 ≤ q
  · rw [if_pos h, pyTrunc, Rat.floor_def]
    exact Int.tdiv_eq_ediv (Rat.num_nonneg.mpr h) (by exact_mod_cast Nat.zero_le _)
  · rw [if_neg h, pyTrunc]
    have hnum : q.num < 0 := by
      by_contra hn
      exact h (Rat.num_nonneg.mp (le_of_not_lt hn))
    have hpos : (0 : Int) ≤ (-q).num := by rw [Rat.neg_num]; omega
    have h1 : (-q).num.tdiv (-q).den = ⌊-q⌋ := by
      rw [Rat.floor_def]
      exact Int.tdiv_eq_ediv hpos (by exact_mod_cast Nat.zero_le _)
    rw [Rat.neg_num, Rat.neg_den, Int.neg_tdiv] at h1
    have h4 : ⌊-q⌋ = -⌈q⌉ := Int.floor_neg
    omega

/-- C7: `yolo2bbox x y w h` is exactly the componentwise truncation
toward zero of `(x - w/2, y - h/2, x + w/2, y + h/2)` — floor for a
non-negative coordinate, ceiling for a negative one — with no re-scaling
by any image width or height (the function takes none). -/
theorem yolo2bbox_truncates_toward_zero (x y w h : ℚ) :
    yolo2bbox x y w h
      = ((if 0 ≤ x - w / 2 then ⌊x - w / 2⌋ else ⌈x - w / 2⌉),
         (if 0 ≤ y - h / 2 then ⌊y - h / 2⌋ else ⌈y - h / 2⌉),
         (if 0 ≤ x + w / 2 then ⌊x + w / 2⌋ else ⌈x + w / 2⌉),
         (if 0 ≤ y + h / 2 then ⌊y + h / 2⌋ else ⌈y + h / 2⌉)) := by
  simp only [yolo2bbox, pyTrunc_eq_floor_or_ceil]

theorem add_txt_cons (i : List Char) (is : List (List Char)) (txt_path : List Char)
    (fs : List (List Char × List Char)) :
    add_txt (i :: is) txt_path fs = add_txt is txt_path (addTxtStep txt_path fs i) := by
  simp [add_txt]

theorem add_txt_append (images : List (List Char)) (txt_path : List Char) :
    ∀ fs : List (List Char × List Char), ∃ added,
      add_txt images txt_path fs = fs ++ added ∧
      ∀ p ∈ added, p.2 = [] ∧ (∀ q ∈ fs, q.1 ≠ p.1) ∧
        ∃ img ∈ images, p.1 = combine_path txt_path (get_filename img) (some (chars ("txt"))) := by
  induction images with
  | nil =>
    intro fs
    exact ⟨[], by simp [add_txt], by simp⟩
  | cons i is ih =>
    intro fs
    rw [add_txt_cons]
    by_cases hc : fs.any fun p =>
      decide (p.1 = combine_path txt_path (get_filename i) (some (chars ("txt"))))
    · have hst : addTxtStep txt_path fs i = fs := by simp [addTxtStep, hc]
      rw [hst]
      obtain ⟨added, h1, h2⟩ := ih fs
      refine ⟨added, h1, fun p hp => ?_⟩
      obtain ⟨hp1, hp2, img, himg, hpeq⟩ := h2 p hp
      exact ⟨hp1, hp2, img, List.mem_cons_of_mem i himg, hpeq⟩
    · have hst : addTxtStep txt_path fs i
          = fs ++ [(combine_path txt_path (get_filename i) (some (chars ("txt"))), [])] := by
        simp only [addTxtStep]
        rw [if_neg hc]
      rw [hst]
      obtain ⟨added, h1, h2⟩ :=
        ih (fs ++ [(combine_path txt_path (get_filename i) (some (chars ("txt"))), [])])
      refine ⟨(combine_path txt_path (get_filename i) (some (chars ("txt"))), []) :: added,
        by rw [h1]; simp, fun p hp => ?_⟩
      rcases List.mem_cons.mp hp with hpk | hpa
      · subst hpk
        refine ⟨rfl, fun q hq hqe => ?_, i, List.mem_cons_self i is, rfl⟩
        exact hc (List.any_eq_true.mpr ⟨q, hq, by simp [hqe]⟩)
      · obtain ⟨hp1, hp2, img, himg, hpeq⟩ := h2 p hpa
        refine ⟨hp1, fun q hq => hp2 q ?_, img, List.mem_cons_of_mem i himg, hpeq⟩
        exact List.mem_append_left _ hq

theorem add_txt_keys_monotone (images : List (List Char)) (txt_path : List Char)
    (fs : List (List Char × List Char)) (k : List Char) (hk : k ∈ fs.map Prod.fst) :
    k ∈ (add_txt images txt_path fs).map Prod.fst := by
  obtain ⟨added, h1, _⟩ := add_txt_append images txt_path fs
  rw [h1, List.map_append]
  exact List.mem_append_left _ hk

theorem add_txt_img_key_mem (images : List (List Char)) (txt_path : List Char) :
    ∀ (fs : List (List Char × List Char)) (img : List Char), img ∈ images →
    combine_path txt_path (get_filename img) (some (chars ("txt")))
      ∈ (add_txt images txt_path fs).map Prod.fst := by
  induction images with
  | nil => intro fs img h; simp at h
  | cons i is ih =>
    intro fs img hmem
    rw [add_txt_cons]
    rcases List.mem_cons.mp hmem with heq | hmem
    · subst heq
      apply add_txt_keys_monotone
      by_cases hc : fs.any fun p =>
        decide (p.1 = combine_path txt_path (get_filename img) (some (chars ("txt"))))
      · have hst : addTxtStep txt_path fs img = fs := by simp [addTxtStep, hc]
        rw [hst]
        obtain ⟨q, hq, hqe⟩ := List.any_eq_true.mp hc
        simp only [decide_eq_true_eq] at hqe
        exact hqe ▸ List.mem_map_of_mem Prod.fst hq
      · have hst : addTxtStep txt_path fs img
            = fs ++ [(combine_path txt_path (get_filename img) (some (chars ("txt"))), [])] := by
          simp only [addTxtStep]
          rw [if_neg hc]
        rw [hst]
        simp
    · exact ih (addTxtStep txt_path fs i) img hmem

theorem add_txt_all_present_eq (images : List (List Char)) (txt_path : List Char) :
    ∀ fs : List (List Char × List Char),
    (∀ img ∈ images,
      combine_path txt_path (get_filename img) (some (chars ("txt"))) ∈ fs.map Prod.fst) →
    add_txt images txt_path fs = fs := by
  induction images with
  | nil => intro fs _; simp [add_txt]
  | cons i is ih =>
    intro fs hall
    rw [add_txt_cons]
    have hc : fs.any (fun p =>
        decide (p.1 = combine_path txt_path (get_filename i) (some (chars ("txt"))))) = true := by
      obtain ⟨q, hq, hqe⟩ := List.mem_map.mp (hall i (List.mem_cons_self i is))
      exact List.any_eq_true.mpr ⟨q, hq, by simp [hqe]⟩
    have hst : addTxtStep txt_path fs i = fs := by simp [addTxtStep, hc]
    rw [hst]
    exact ih fs fun img h => hall img (List.mem_cons_of_mem i h)

/-- C9: `add_txt` only appends files: the prior store is preserved as a
prefix (every existing annotation file's contents are unchanged), every
created file is empty, has a path not present before, and corresponds to
a matched image; and running `add_txt` a second time with the same
arguments changes nothing. -/
theorem add_txt_frame_idempotent (images : List (List Char)) (txt_path : List Char)
    (fs : List (List Char × List Char)) :
    (∃ added, add_txt images txt_path fs = fs ++ added ∧
      ∀ p ∈ added, p.2 = [] ∧ (∀ q ∈ fs, q.1 ≠ p.1) ∧
        ∃ img ∈ images, p.1 = combine_path txt_path (get_filename img) (some (chars ("txt")))) ∧
    add_txt images txt_path (add_txt images txt_path fs) = add_txt images txt_path fs :=
  ⟨add_txt_append images txt_path fs,
    add_txt_all_present_eq images txt_path (add_txt images txt_path fs)
      fun img h => add_txt_img_key_mem images txt_path fs img h⟩

theorem fsGet_fsSet :
    ∀ (fs : List (List Char × List YoloLine)) (k : List Char) (v : List YoloLine),
    fsGet k (fsSet fs k v) = some v := by
  intro fs
  induction fs with
  | nil => intro k v; simp [fsSet, fsGet]
  | cons p rest ih =>
    intro k v
    by_cases hp : p.1 = k
    · have hc : (p :: rest).any (fun q => decide (q.1 = k)) = true := by simp [hp]
      rw [fsSet, if_pos hc, List.map_cons, if_pos hp, fsGet]
      simp [hp]
    · by_cases hr : rest.any fun q => decide (q.1 = k)
      · have hc : (p :: rest).any (fun q => decide (q.1 = k)) = true := by simp [hr]
        rw [fsSet, if_pos hc, List.map_cons, if_neg hp, fsGet, if_neg hp]
        have h := ih k v
        rw [fsSet, if_pos hr] at h
        exact h
      · have hc : ¬ ((p :: rest).any (fun q => decide (q.1 = k)) = true) := by
          simp [hp, hr]
        rw [fsSet, if_neg hc, List.cons_append, fsGet, if_neg hp]
        have h := ih k v
        rw [fsSet, if_neg (by simp [hr])] at h
        exact h

/-- C10: `json2txt` opens the output txt file in truncating `w+` mode
before `json.load` parses the JSON input, so when the first input fails
to parse the batch stops with the decode error and the same-named output
file is left empty — its pre-existing content is destroyed even though
the import of that file failed. -/
theorem json2txt_truncates_before_parse (txt_path : List Char)
    (map_config : List (Int × Int)) (json_file : List Char)
    (rest : List (List Char × Option JsonData))
    (fs : List (List Char × List YoloLine)) (prev : List YoloLine)
    (_hprev : fsGet (combine_path txt_path (get_filename json_file) (some (chars ("txt")))) fs
      = some prev) :
    (json2txt txt_path map_config ((json_file, none) :: rest) fs).2
      = some ("JSONDecodeError") ∧
    fsGet (combine_path txt_path (get_filename json_file) (some (chars ("txt"))))
        (json2txt txt_path map_config ((json_file, none) :: rest) fs).1
      = some [] := by
  constructor
  · rfl
  · rw [json2txt]
    exact fsGet_fsSet fs _ []

/-- C10 witness: the store holds `out/a.txt` with one record; importing a
malformed `a.json` empties it. -/
theorem json2txt_truncates_before_parse_witness :
    fsGet (combine_path (chars ("out")) (get_filename (chars ("a.json"))) (some (chars ("txt"))))
        [(chars ("out/a.txt"), [((3 : Int), (1 : ℚ), 1, 1, 1)])]
      = some [((3 : Int), (1 : ℚ), 1, 1, 1)] ∧
    ((json2txt (chars ("out")) [] [((chars ("a.json")), none)]
        [(chars ("out/a.txt"), [((3 : Int), (1 : ℚ), 1, 1, 1)])]).2 = some ("JSONDecodeError") ∧
      fsGet (combine_path (chars ("out")) (get_filename (chars ("a.json"))) (some (chars ("txt"))))
          (json2txt (chars ("out")) [] [((chars ("a.json")), none)]
            [(chars ("out/a.txt"), [((3 : Int), (1 : ℚ), 1, 1, 1)])]).1 = some []) :=
  ⟨rfl, json2txt_truncates_before_parse (chars ("out")) [] (chars ("a.json")) []
    [(chars ("out/a.txt"), [((3 : Int), (1 : ℚ), 1, 1, 1)])]
    [((3 : Int), (1 : ℚ), 1, 1, 1)] rfl⟩

end CommonML
